import Mathlib

/-!
Verification of the content-backend course pipeline (TypeScript sources under
`src/`).  The embedding models JavaScript strings at the Unicode-codepoint
level (`List Char`); the JS regexes of the parser are translated operator by
operator, including greedy/lazy quantifier behaviour and the give-back-one
backtracking step where a greedy class is followed by `(.+)`.  Known
codepoint-level vs UTF-16 deviations (string `.length` counting astral
characters as 2, character classes containing surrogate halves) are noted at
the definitions they concern; all concrete inputs used in theorems below are
chosen so that both semantics agree on them.
-/

namespace ContentBackend

/-! ## JavaScript string primitives -/

/-- Whitespace recognized by JS `\s`, `trim()` (WhiteSpace + LineTerminator). -/
def jsWhitespace (c : Char) : Bool :=
  let n := c.toNat
  n = 0x20 || n = 0x09 || n = 0x0a || n = 0x0d || n = 0x0b || n = 0x0c ||
  n = 0xa0 || n = 0x1680 || (0x2000 <= n && n <= 0x200a) ||
  n = 0x2028 || n = 0x2029 || n = 0x202f || n = 0x205f || n = 0x3000 || n = 0xfeff

/-- JS `String.prototype.trim`. -/
def trimList (l : List Char) : List Char :=
  ((l.dropWhile jsWhitespace).reverse.dropWhile jsWhitespace).reverse

/-- JS `content.split('\n').map(l => l.trim()).filter(Boolean)` (index-parser line 201). -/
def splitLines (content : String) : List (List Char) :=
  ((content.data.splitOn '\n').map trimList).filter (fun l => !l.isEmpty)

/-- JS `String.prototype.includes`: `sub` occurs contiguously in `l`. -/
def includesSub (l sub : List Char) : Bool :=
  match l with
  | [] => sub.isEmpty
  | _ :: rest => sub.isPrefixOf l || includesSub rest sub

/-- Substring test with a string literal pattern. -/
def includes (l : List Char) (sub : String) : Bool :=
  includesSub l sub.data

/-- JS `toLowerCase` restricted to the characters this code base manipulates
(ASCII plus the accented Spanish capitals). -/
def toLowerJS (c : Char) : Char :=
  if c = 'Á' then 'á' else if c = 'É' then 'é' else if c = 'Í' then 'í'
  else if c = 'Ó' then 'ó' else if c = 'Ú' then 'ú' else if c = 'Ñ' then 'ñ'
  else if c = 'Ü' then 'ü' else c.toLower

/-- JS `toUpperCase` restricted likewise. -/
def toUpperJS (c : Char) : Char :=
  if c = 'á' then 'Á' else if c = 'é' then 'É' else if c = 'í' then 'Í'
  else if c = 'ó' then 'Ó' else if c = 'ú' then 'Ú' else if c = 'ñ' then 'Ñ'
  else if c = 'ü' then 'Ü' else c.toUpper

/-- Case-insensitive literal match: strip `pat` (given in lowercase) from the
front of `l`, comparing case-insensitively; models a `/i` literal. -/
def ciStrip (pat l : List Char) : Option (List Char) :=
  match pat, l with
  | [], _ => some l
  | _ :: _, [] => none
  | p :: ps, c :: cs => if toLowerJS c = p then ciStrip ps cs else none

/-- Case-insensitive prefix test (a `/^lit/i` regex test). -/
def ciMatches (pat : String) (l : List Char) : Bool :=
  (ciStrip pat.data l).isSome

/-- Models the regex tail `CLASS+(.+)` after some prefix already matched: the
greedy class run must be nonempty, and if it consumes the entire remainder the
engine gives one character back to `(.+)`.  Returns the `(.+)` capture. -/
def sepSplit (p : Char → Bool) (l : List Char) : Option (List Char) :=
  let k := (l.takeWhile p).length
  if k = 0 then none
  else if l.drop k ≠ [] then some (l.drop k)
  else if 2 ≤ k then some (l.drop (k - 1))
  else none

/-- JS `String.prototype.replace` with a plain-string pattern: replace the
first occurrence of `pat` by nothing (deletion), as in
`line.replace('📌 Resultado:', '')`. -/
def removeFirst (pat : List Char) (l : List Char) : List Char :=
  match l with
  | [] => []
  | c :: rest =>
    if pat.isPrefixOf l then l.drop pat.length
    else c :: removeFirst pat rest

/-- State machine for `collapseWs`: `inRun` records whether the previous
character was whitespace (in which case further whitespace is dropped). -/
def collapseWsGo (inRun : Bool) : List Char → List Char
  | [] => []
  | c :: rest =>
    if jsWhitespace c then
      if inRun then collapseWsGo true rest
      else ' ' :: collapseWsGo true rest
    else c :: collapseWsGo false rest

/-- Collapse whitespace runs to single spaces: JS `.replace(/\s+/g, ' ')`. -/
def collapseWs (l : List Char) : List Char :=
  collapseWsGo false l

/-! ## Data model (schemas/validator.ts interfaces) -/

/-- Topic generation status (`'pending' | 'generating' | 'completed' | 'failed'`). -/
inductive TopicStatus where
  | pending
  | generating
  | completed
  | failed
deriving DecidableEq, Repr

/-- The optional `generatedDocs` record of a Topic. -/
structure GeneratedDocs where
  topicIndexId : Option String
  topicDevelopmentId : Option String
  voiceoverScriptId : Option String
deriving DecidableEq, Repr

/-- `interface Topic` of schemas/validator.ts. -/
structure Topic where
  topicNumber : String
  topicName : String
  description : Option String := none
  status : Option TopicStatus := none
  generatedDocs : Option GeneratedDocs := none
deriving DecidableEq, Repr

/-- `interface Module` of schemas/validator.ts (`moduleNumber` is a positive
integer in the schema; modelled as `Nat`). -/
structure Module where
  moduleNumber : Nat
  moduleName : String
  moduleResult : Option String := none
  topics : List Topic
deriving DecidableEq, Repr

/-- The `metadata` record of a CourseSpec. -/
structure Metadata where
  sourceFileId : Option String := none
  parsedAt : Option String := none
deriving DecidableEq, Repr

/-- `interface CourseSpec` of schemas/validator.ts.  `level` keeps the TS
string-union representation. -/
structure CourseSpec where
  courseName : String
  level : String
  objective : String
  targetAudience : Option String := none
  modules : List Module
  metadata : Option Metadata := none
deriving DecidableEq, Repr

/-- `createEmptyCourseSpec` (validator.ts lines 84-94).  The call
`new Date().toISOString()` is modelled by the explicit clock argument `now`. -/
def createEmptyCourseSpec (now : String) : CourseSpec :=
  { courseName := ""
    level := "básico"
    objective := ""
    modules := []
    metadata := some { sourceFileId := none, parsedAt := some now } }

/-! ## Index parser (openai/client.ts concatenation, parser section lines 196-446)

The index parser works on the trimmed nonempty lines of the document.  Each
JS regex of the source is modelled by a dedicated matcher below. -/

/-- Char class `[📌🛠️👉]` of the module/topic name cleanups.  In the source
the class is written with the emoji-presentation sequence `🛠️`, so at
codepoint level it contains `📌`, `🛠`, the variation selector U+FE0F and
`👉`. -/
def nameEmoji (c : Char) : Bool :=
  c = '📌' || c = '🛠' || c.toNat = 0xfe0f || c = '👉'

/-- Char class `[🔵⚪🟢🔴🟡]` of the topic-name cleanup.  The companion
`.replace(/\udd35/g, '')` deletes a lone UTF-16 low surrogate, which does not
occur in well-formed codepoint sequences, so it is the identity here. -/
def circleEmoji (c : Char) : Bool :=
  c = '🔵' || c = '⚪' || c = '🟢' || c = '🔴' || c = '🟡'

/-- Char class `[📌🛠️👉🧱📘]` of the fallback-parser topic-name cleanup. -/
def fallbackEmoji (c : Char) : Bool :=
  nameEmoji c || c = '🧱' || c = '📘'

/-- Test for `/^[\d.]*\s*Nivel\s+(básico|intermedio|avanzado)/i`
(client.ts line 311): course-title "Nivel" lines skipped by `parseModules`. -/
def nivelSkip (l : List Char) : Bool :=
  let r1 := (l.dropWhile (fun c => c.isDigit || c = '.')).dropWhile jsWhitespace
  match ciStrip "nivel".data r1 with
  | none => false
  | some r2 =>
    let ws := (r2.takeWhile jsWhitespace).length
    if ws = 0 then false
    else
      let r3 := r2.drop ws
      ciMatches "básico" r3 || ciMatches "intermedio" r3 || ciMatches "avanzado" r3

/-- Separator class `[:\s·.]` of the MÓDULO header regex. -/
def moduloSep (c : Char) : Bool :=
  c = ':' || jsWhitespace c || c = '·' || c = '.'

/-- Match `/^(?:🧱\s*)?MÓDULO\s*(\d+)[:\s·.]+(.+)/i` (client.ts line 316),
returning the captured digits and title.  `(\d+)` is greedy; the separator
class and `(.+)` interact via `sepSplit`. -/
def matchModulo (l : List Char) : Option (List Char × List Char) :=
  let l1 := match l with
            | '🧱' :: rest => rest.dropWhile jsWhitespace
            | _ => l
  match ciStrip "módulo".data l1 with
  | none => none
  | some r1 =>
    let r2 := r1.dropWhile jsWhitespace
    let ds := r2.takeWhile Char.isDigit
    if ds.isEmpty then none
    else
      match sepSplit moduloSep (r2.drop ds.length) with
      | some title => some (ds, title)
      | none => none

/-- Match `/^([BI])(\d+)\.\s+(.+)$/` (client.ts line 332): letter, module
digits, a literal dot, whitespace, title. -/
def matchModuleHeader (l : List Char) : Option (Char × List Char × List Char) :=
  match l with
  | c :: rest =>
    if c = 'B' || c = 'I' then
      let ds := rest.takeWhile Char.isDigit
      if ds.isEmpty then none
      else
        match rest.drop ds.length with
        | '.' :: r2 =>
          match sepSplit jsWhitespace r2 with
          | some title => some (c, ds, title)
          | none => none
        | _ => none
    else none
  | [] => none

/-- Test for `/^[BI]\d+\.\d+/` (negative guard at client.ts line 333). -/
def hasTopicShape (l : List Char) : Bool :=
  match l with
  | c :: rest =>
    (c = 'B' || c = 'I') &&
    (let ds := rest.takeWhile Char.isDigit
     !ds.isEmpty &&
     (match rest.drop ds.length with
      | '.' :: d :: _ => d.isDigit
      | _ => false))
  | [] => false

/-- Match `/^([BI])(\d+)\.(\d+)\s+(.+)$/` (client.ts line 351): returns
(letter, module digits, topic digits, raw name). -/
def matchTopic (l : List Char) : Option (Char × List Char × List Char × List Char) :=
  match l with
  | c :: rest =>
    if c = 'B' || c = 'I' then
      let ds := rest.takeWhile Char.isDigit
      if ds.isEmpty then none
      else
        match rest.drop ds.length with
        | '.' :: r2 =>
          let ts := r2.takeWhile Char.isDigit
          if ts.isEmpty then none
          else
            match sepSplit jsWhitespace (r2.drop ts.length) with
            | some name => some (c, ds, ts, name)
            | none => none
        | _ => none
    else none
  | [] => none

/-- State of the `parseModules` line loop (client.ts lines 304-401). -/
structure PMState where
  modules : List Module
  current : Option Module
  counter : Nat
deriving Repr

/-- Close the currently open module: it is emitted only when it holds at
least one topic (`currentModule.topics.length > 0`). -/
def closeModules (modules : List Module) (current : Option Module) : List Module :=
  match current with
  | some m => if m.topics.isEmpty then modules else modules ++ [m]
  | none => modules

/-- Close the open module and open a fresh one with the next counter value
(the shared close/open step of the two module-header branches). -/
def pmOpenModule (st : PMState) (name : String) : PMState :=
  { modules := closeModules st.modules st.current
    counter := st.counter + 1
    current := some { moduleNumber := st.counter + 1, moduleName := name, topics := [] } }

/-- The topic branch of `parseModules` (client.ts lines 351-382): open a
synthetic module when none is open, clean the topic name, and append the
topic unless its cleaned name is empty.  The topic number is taken verbatim
from the source digits. -/
def pmTopicLine (st : PMState) (ds ts rawName : List Char) : PMState :=
  let opened : Module × Nat :=
    match st.current with
    | some m => (m, st.counter)
    | none =>
      ({ moduleNumber := st.counter + 1
         moduleName := "Contenido del curso"
         topics := [] }, st.counter + 1)
  let name := trimList (rawName.filter (fun c => !circleEmoji c))
  let cur' :=
    if name.isEmpty then opened.1
    else { opened.1 with topics := opened.1.topics ++
      [{ topicNumber := String.mk ds ++ "." ++ String.mk ts
         topicName := String.mk name
         status := some .pending }] }
  { modules := st.modules, current := some cur', counter := opened.2 }

/-- The `📌 Resultado:` branch of `parseModules` (client.ts lines 385-387). -/
def pmResultLine (st : PMState) (l : List Char) : PMState :=
  if includes l "📌 Resultado:" && st.current.isSome then
    match st.current with
    | some m =>
      let res := some (String.mk (trimList (removeFirst "📌 Resultado:".data l)))
      { st with current := some { m with moduleResult := res } }
    | none => st
  else st

/-- One iteration of the `parseModules` for-loop: the four recognized line
shapes tried in source order, with the `📌 Resultado:` annotation last. -/
def pmLine (st : PMState) (l : List Char) : PMState :=
  if nivelSkip l then st
  else
    match matchModulo l with
    | some (_, title) =>
      pmOpenModule st (String.mk (trimList (title.filter (fun c => !nameEmoji c))))
    | none =>
      match matchModuleHeader l, hasTopicShape l with
      | some (letter, ds, title), false =>
        pmOpenModule st (String.mk (trimList
          ((letter :: ds ++ '.' :: ' ' :: trimList title).filter (fun c => !nameEmoji c))))
      | _, _ =>
        match matchTopic l with
        | some (_, ds, ts, rawName) => pmTopicLine st ds ts rawName
        | none => pmResultLine st l

/-- Test for `/^[_─]+$/` (horizontal-rule lines of the fallback parser and of
the objective collector). -/
def isRuleLine (l : List Char) : Bool :=
  !l.isEmpty && l.all (fun c => c = '_' || c = '─')

/-- Candidate `(capture, rest)` splits of the leading number pattern
`\d+\.?\d*` in JS backtracking priority order: `\d*` shrinks first, then the
optional dot is dropped, then `\d+` shrinks. -/
def numCandidates (l : List Char) : List (List Char × List Char) :=
  let d1 := l.takeWhile Char.isDigit
  if d1.isEmpty then []
  else
    ((List.range d1.length).map (fun i => d1.length - i)).flatMap (fun n =>
      let pre := d1.take n
      let rest := l.drop n
      (match rest with
       | '.' :: r2 =>
         let d2 := r2.takeWhile Char.isDigit
         ((List.range (d2.length + 1)).map (fun i => d2.length - i)).map
           (fun m => (pre ++ '.' :: d2.take m, r2.drop m))
       | _ => []) ++ [(pre, rest)])

/-- Separator class `[.\s)]` of the fallback topic regex. -/
def pafSep (c : Char) : Bool :=
  c = '.' || jsWhitespace c || c = ')'

/-- Test for `/^\d+\.?\d*[.\s)/]/` (client.ts line 423, `hasNumber`). -/
def hasNumTest (l : List Char) : Bool :=
  (numCandidates l).any (fun cand =>
    match cand.2 with
    | c :: _ => pafSep c || c = '/'
    | [] => false)

/-- Match `/^(\d+\.?\d*)[.\s)]+(.+)/` (client.ts line 427), returning the
number capture and the title capture. -/
def matchNumTitle (l : List Char) : Option (List Char × List Char) :=
  (numCandidates l).findSome? (fun cand =>
    match sepSplit pafSep cand.2 with
    | some title => some (cand.1, title)
    | none => none)

/-- State of the `parseAlternativeFormat` loop (client.ts lines 406-446). -/
structure PAFState where
  topics : List Topic
  counter : Nat
deriving Repr

/-- One iteration of the `parseAlternativeFormat` for-loop.  `line.length`
comparisons use the codepoint count (JS counts UTF-16 units; they agree on
lines without astral characters). -/
def pafLine (st : PAFState) (l : List Char) : PAFState :=
  if includes l "Objetivo" || includes l "🎯" then st
  else if isRuleLine l then st
  else if l.length < 5 then st
  else if hasNumTest l || decide (10 < l.length) then
    match matchNumTitle l with
    | some (num, title) =>
      { topics := st.topics ++
          [{ topicNumber := String.mk num
             topicName := String.mk (trimList (title.filter (fun c => !fallbackEmoji c)))
             status := some .pending }]
        counter := st.counter + 1 }
    | none =>
      { topics := st.topics ++
          [{ topicNumber := toString st.counter
             topicName := String.mk (trimList (l.filter (fun c => !fallbackEmoji c)))
             status := some .pending }]
        counter := st.counter + 1 }
  else st

/-- `parseAlternativeFormat` (client.ts lines 406-446): a single synthetic
module collecting every numbered or substantial line as a topic. -/
def parseAlternativeFormat (lines : List (List Char)) : List Module :=
  let st := lines.foldl pafLine { topics := [], counter := 1 }
  if st.topics.isEmpty then []
  else [{ moduleNumber := 1, moduleName := "Contenido del curso", topics := st.topics }]

/-- `parseModules` (client.ts lines 304-401): the primary module/topic line
classifier, falling back to `parseAlternativeFormat` when it recognizes no
module. -/
def parseModules (lines : List (List Char)) : List Module :=
  let st := lines.foldl pmLine { modules := [], current := none, counter := 0 }
  let ms := closeModules st.modules st.current
  if ms.isEmpty then parseAlternativeFormat lines else ms

/-- Char class `[📘📗📕📙🎯🧱\s]` stripped from the front of CURSO titles. -/
def titleDecor (c : Char) : Bool :=
  c = '📘' || c = '📗' || c = '📕' || c = '📙' || c = '🎯' || c = '🧱' || jsWhitespace c

/-- Char class `[📘📗📕📙\s]` stripped from the front of other titles. -/
def bookDecor (c : Char) : Bool :=
  c = '📘' || c = '📗' || c = '📕' || c = '📙' || jsWhitespace c

/-- Test for `/^[BMI]\d+\./`. -/
def bmiTest (l : List Char) : Bool :=
  match l with
  | c :: rest =>
    (c = 'B' || c = 'M' || c = 'I') &&
    (let ds := rest.takeWhile Char.isDigit
     !ds.isEmpty &&
     (match rest.drop ds.length with
      | '.' :: _ => true
      | _ => false))
  | [] => false

/-- The scanning loop of `extractCourseName` over the first 10 lines
(client.ts lines 223-242). -/
def scanCourseName : List (List Char) → Option String
  | [] => none
  | l :: rest =>
    if includes l "Objetivo" || includes l "objetivo" then scanCourseName rest
    else if includes l "Nivel" || includes l "nivel" then scanCourseName rest
    else if includes l "CURSO" || includes l "Curso" then
      some (String.mk (trimList (l.dropWhile titleDecor)))
    else if (match l with
             | c :: _ => c = '📘' || c = '📗' || c = '📕' || c = '📙'
             | [] => false) then
      some (String.mk (trimList (l.dropWhile bookDecor)))
    else if decide (10 < l.length) && !bmiTest l && !ciMatches "módulo" l then
      some (String.mk (trimList (l.dropWhile bookDecor)))
    else scanCourseName rest

/-- `extractCourseName` (client.ts lines 221-245). -/
def extractCourseName (lines : List (List Char)) : String :=
  match scanCourseName (lines.take 10) with
  | some n => n
  | none =>
    match lines with
    | l :: _ => String.mk l
    | [] => "Untitled Course"

/-- `extractLevel` (client.ts lines 250-260): case-insensitive substring
search over the whole joined text. -/
def extractLevel (lines : List (List Char)) : String :=
  let content := (List.intercalate [' '] lines).map toLowerJS
  if includes content "avanzado" || includes content "advanced" then "avanzado"
  else if includes content "intermedio" || includes content "intermediate" then "intermedio"
  else "básico"

/-- First-code-unit test for `/^[🧱📌MÓDULO]/` (client.ts line 281).  In JS
the class holds the UTF-16 units of `🧱` and `📌` plus the letters
M, Ó, D, U, L, O; at codepoint level a first astral codepoint matches exactly
when its high surrogate is `0xd83d` or `0xd83e`, i.e. when it lies in
U+1F400–U+1F7FF or U+1F800–U+1FBFF. -/
def objStopLine (l : List Char) : Bool :=
  match l with
  | [] => false
  | c :: _ =>
    c = 'M' || c = 'Ó' || c = 'D' || c = 'U' || c = 'L' || c = 'O' ||
    (0x1f400 ≤ c.toNat && c.toNat ≤ 0x1f7ff) ||
    (0x1f800 ≤ c.toNat && c.toNat ≤ 0x1fbff)

/-- Test for `/^[🎯\s]*Objetivo/i` (client.ts line 274): the line starts with
the objective marker after optional decorations. -/
def objHeaderTest (l : List Char) : Bool :=
  ciMatches "objetivo" (l.dropWhile (fun c => c = '🎯' || jsWhitespace c))

/-- `line.replace(/^[🎯\s]*Objetivo[:\s]*/i, '')` (client.ts line 277). -/
def stripObjMarker (l : List Char) : List Char :=
  let r := l.dropWhile (fun c => c = '🎯' || jsWhitespace c)
  match ciStrip "objetivo".data r with
  | some r2 => r2.dropWhile (fun c => c = ':' || jsWhitespace c)
  | none => l

/-- The collection `while` loop of `extractObjective` (client.ts lines
281-286): stop at the first line matching `/^[🧱📌MÓDULO]/`, skip
`/^[_─]+$/` lines, collect the rest. -/
def objCollect : List (List Char) → List (List Char)
  | [] => []
  | l :: rest =>
    if objStopLine l then []
    else if isRuleLine l then objCollect rest
    else l :: objCollect rest

/-- Join the collected objective fragments:
`join(' ').trim().replace(/\s+/g, ' ')` (client.ts line 288). -/
def objJoin (ls : List (List Char)) : String :=
  String.mk (collapseWs (trimList (List.intercalate [' '] ls)))

/-- The scanning loop of `extractObjective`: find the first line containing
an objective marker.  When the line starts with the marker the collection
starts at the next line; otherwise the stripped line is recorded and the
collection loop starts again at that same line. -/
def objFind : List (List Char) → Option String
  | [] => none
  | l :: rest =>
    if includes l "Objetivo" || includes l "objetivo" || includes l "🎯" then
      some (objJoin
        (if objHeaderTest l then objCollect rest
         else stripObjMarker l :: objCollect (l :: rest)))
    else objFind rest

/-- `extractObjective` (client.ts lines 265-293). -/
def extractObjective (lines : List (List Char)) : String :=
  (objFind lines).getD "Completar el curso satisfactoriamente"

/-- `parseIndexContent` (client.ts lines 199-216).  The construction starts
from `createEmptyCourseSpec` and fills the four extracted fields; `now` is
the clock value used for `metadata.parsedAt`. -/
def parseIndexContent (now : String) (content : String) : CourseSpec :=
  let lines := splitLines content
  { createEmptyCourseSpec now with
      courseName := extractCourseName lines
      level := extractLevel lines
      objective := extractObjective lines
      modules := parseModules lines }

/-! ## Content generator post-processing (pipeline/generator.ts section)

`generateTopicContent` ends with two pure post-processing stages applied to
the draft voiceover script returned by the generation calls: the
required-ending fix (lines 382-395) and `cleanMarkdownToPlainText`
(lines 529-550, applied at line 403).  Both are modelled here as functions of
the draft text. -/

/-- JS `String.prototype.endsWith`. -/
def jsEndsWith (l : List Char) (suffix : String) : Bool :=
  suffix.data.isSuffixOf l

/-- Case-insensitive end-of-string test against a lowercase pattern. -/
def ciEndsWith (pat : List Char) (l : List Char) : Bool :=
  pat.length ≤ l.length && ((l.drop (l.length - pat.length)).map toLowerJS == pat)

/-- Case-insensitive end-anchored replace: if `l` ends with `pat` (given in
lowercase) compared case-insensitively, replace that suffix by `repl`;
otherwise leave `l` unchanged.  Models `/lit$/i` replaces. -/
def replaceCISuffix (pat : List Char) (repl : List Char) (l : List Char) : List Char :=
  if ciEndsWith pat l then l.take (l.length - pat.length) ++ repl
  else l

/-- The canonical closing sentence required of every voiceover script
(runner.ts line 383, also RULES.md). -/
def requiredEnding : String := "Nos vemos en la siguiente clase."

/-- The required-ending fix of `generateTopicContent` (runner.ts lines
382-395): trim the draft; if it does not already end with the canonical
sentence, rewrite the two known near-variants
(`/Nos vemos en la siguiente clase$/i`, `/Nos vemos en la próxima clase\.?$/i`,
the optional dot matched greedily); if it still does not end correctly,
append the sentence after a blank line. -/
def ensureVoiceoverEnding (draft : String) : List Char :=
  let fv := trimList draft.data
  if jsEndsWith fv requiredEnding then fv
  else
    let fv1 := replaceCISuffix "nos vemos en la siguiente clase".data requiredEnding.data fv
    let fv2 :=
      if ciEndsWith "nos vemos en la próxima clase.".data fv1 then
        replaceCISuffix "nos vemos en la próxima clase.".data requiredEnding.data fv1
      else replaceCISuffix "nos vemos en la próxima clase".data requiredEnding.data fv1
    if jsEndsWith fv2 requiredEnding then fv2
    else fv2 ++ "\n\n".data ++ requiredEnding.data

/-- Split a text on `'\n'` (inverse of `joinNl`), for the `/m`-anchored
line-wise regex steps of `cleanMarkdownToPlainText`. -/
def splitOnNl (l : List Char) : List (List Char) :=
  l.splitOn '\n'

/-- Rejoin lines with `'\n'`. -/
def joinNl (ls : List (List Char)) : List Char :=
  List.intercalate ['\n'] ls

/-- Line-wise model of `.replace(/^#{1,6}\s+(.+)$/gm, (_, t) =>
t.toUpperCase() + '\n')`: one to six hashes, mandatory whitespace, nonempty
title; the matched line is replaced by the uppercased title plus a newline. -/
def headerLine (l : List Char) : List Char :=
  let n := (l.takeWhile (fun c => c = '#')).length
  if 1 ≤ n && n ≤ 6 then
    match sepSplit jsWhitespace (l.drop n) with
    | some title => title.map toUpperJS ++ ['\n']
    | none => l
  else l

/-- Smallest split `m = content ++ close ++ rest` of a lazy-quantifier body:
the minimal `k` (at least 1 when `minOne`) such that the closing delimiter is
a prefix of `m` after `k` content characters; when `allowNl` is false the
content may not contain a newline (`.` does not match `\n`). -/
def closeIdx (close : List Char) (allowNl minOne : Bool) (m : List Char) : Option Nat :=
  (List.range (m.length + 1)).find? (fun k =>
    (!minOne || decide (1 ≤ k)) &&
    close.isPrefixOf (m.drop k) &&
    (allowNl || !(m.take k).contains '\n'))

/-- Global lazy pair replace, modelling `/open(body)close/g`: scan left to
right; at each delimiter occurrence find the shortest valid body followed by
the closing delimiter; replace by the body when `keep` (the `$1`
replacements) or by nothing (the code-fence removal); resume after the
match.  The delimiter is passed as head and tail so it is provably
nonempty. -/
def stripPairsGo (d : Char) (ds : List Char) (allowNl minOne keep : Bool) :
    Nat → List Char → List Char
  | _, [] => []
  | 0, l => l
  | fuel + 1, c :: rest =>
    if (d :: ds).isPrefixOf (c :: rest) then
      let m := rest.drop ds.length
      match closeIdx (d :: ds) allowNl minOne m with
      | some k =>
        (if keep then m.take k else []) ++
          stripPairsGo d ds allowNl minOne keep fuel (m.drop (k + ds.length + 1))
      | none => c :: stripPairsGo d ds allowNl minOne keep fuel rest
    else c :: stripPairsGo d ds allowNl minOne keep fuel rest

/-- Entry point of the global lazy pair replace; every scan step consumes at
least one character, so `l.length` steps always suffice. -/
def stripPairs (d : Char) (ds : List Char) (allowNl minOne keep : Bool)
    (l : List Char) : List Char :=
  stripPairsGo d ds allowNl minOne keep l.length l

/-- Line-wise model of `.replace(/^[\*\-•]\s+/gm, '- ')`. -/
def bulletLine (l : List Char) : List Char :=
  match l with
  | c :: rest =>
    if c = '*' || c = '-' || c = '•' then
      let k := (rest.takeWhile jsWhitespace).length
      if 1 ≤ k then '-' :: ' ' :: rest.drop k else l
    else l
  | [] => l

/-- Line-wise model of `.replace(/^[-*_]{3,}$/gm, '')`. -/
def hrLine (l : List Char) : List Char :=
  if 3 ≤ l.length && l.all (fun c => c = '-' || c = '*' || c = '_') then []
  else l

/-- The emoji ranges stripped by
`.replace(/[\u{1F300}-\u{1F9FF}]|[\u{2600}-\u{26FF}]|[\u{2700}-\u{27BF}]/gu, '')`
(`u` flag: true codepoint ranges). -/
def emojiRange (c : Char) : Bool :=
  (0x1f300 ≤ c.toNat && c.toNat ≤ 0x1f9ff) ||
  (0x2600 ≤ c.toNat && c.toNat ≤ 0x26ff) ||
  (0x2700 ≤ c.toNat && c.toNat ≤ 0x27bf)

/-- Flush a pending newline run: three or more newlines become exactly two. -/
def collapseNlFlush (run : Nat) (tail : List Char) : List Char :=
  (if 3 ≤ run then ['\n', '\n'] else List.replicate run '\n') ++ tail

/-- State machine for `collapseNl`: `run` counts the pending newline run. -/
def collapseNlGo (run : Nat) : List Char → List Char
  | [] => collapseNlFlush run []
  | c :: rest =>
    if c = '\n' then collapseNlGo (run + 1) rest
    else collapseNlFlush run (c :: collapseNlGo 0 rest)

/-- Model of `.replace(/\n{3,}/g, '\n\n')`. -/
def collapseNl (l : List Char) : List Char :=
  collapseNlGo 0 l

/-- Apply a line-wise `/m` replace to a whole text. -/
def mapLines (f : List Char → List Char) (l : List Char) : List Char :=
  joinNl ((splitOnNl l).map f)

/-- Backquote character (the inline-code and fence delimiter). -/
def backquote : Char := "`".front

/-- `cleanMarkdownToPlainText` (runner.ts generator section, lines 529-550):
the twelve replace steps in source order.  The `/m`-anchored steps are
modelled line-wise (their patterns do not cross lines on the inputs treated
in this development). -/
def cleanMarkdownToPlainText (s : String) : String :=
  let t1 := mapLines headerLine s.data
  let t2 := stripPairs '*' ['*'] false true true t1
  let t3 := stripPairs '*' [] false true true t2
  let t4 := stripPairs '_' ['_'] false true true t3
  let t5 := stripPairs '_' [] false true true t4
  let t6 := stripPairs backquote [backquote, backquote] true false false t5
  let t7 := stripPairs backquote [] false true true t6
  let t8 := mapLines bulletLine t7
  let t9 := mapLines hrLine t8
  let t10 := t9.filter (fun c => !emojiRange c)
  let t11 := collapseNl t10
  String.mk (trimList t11)

/-- The complete voiceover post-processing of `generateTopicContent`: the
required-ending fix followed by `cleanMarkdownToPlainText`, exactly as the
returned `voiceoverScript` field is computed (runner.ts lines 382-404). -/
def finalizeVoiceover (draft : String) : String :=
  cleanMarkdownToPlainText (String.mk (ensureVoiceoverEnding draft))

/-! ## Document store and structure materializer (google/drive.ts,
pipeline/folder-writer.ts)

The Google Drive store is modelled as an explicit state: a list of resources
(id, name, parent, kind) plus a fresh-id counter.  `files.list` with a
name/parent/mimeType query is modelled by `List.find?` over the resource
list (the first match, deterministically); `files.create` appends a resource
with a fresh identifier.  Resources are never trashed by this code, so the
`trashed = false` clause is vacuous. -/

/-- A Drive resource: folder or document. -/
structure DriveFileRec where
  id : String
  name : String
  parentId : String
  isFolder : Bool
deriving DecidableEq, Repr

/-- The state of the document store. -/
structure DriveState where
  nextId : Nat
  files : List DriveFileRec
deriving DecidableEq, Repr

/-- Identifier generated for the `n`-th created resource. -/
def genId (n : Nat) : String :=
  "res-" ++ toString n

/-- `findFolder` (drive.ts lines 11-25): first resource with matching name,
parent and folder mime type. -/
def findFolder (name parentId : String) (st : DriveState) : Option DriveFileRec :=
  st.files.find? (fun f => f.name = name && f.parentId = parentId && f.isFolder)

/-- `createFolder` (drive.ts lines 30-46). -/
def createFolder (name parentId : String) (st : DriveState) :
    DriveFileRec × DriveState :=
  let f : DriveFileRec := { id := genId st.nextId, name := name,
                            parentId := parentId, isFolder := true }
  (f, { nextId := st.nextId + 1, files := st.files ++ [f] })

/-- `findOrCreateFolder` (drive.ts lines 52-64). -/
def findOrCreateFolder (name parentId : String) (st : DriveState) :
    DriveFileRec × DriveState :=
  match findFolder name parentId st with
  | some existing => (existing, st)
  | none => createFolder name parentId st

/-- `findDoc` (drive.ts lines 69-83). -/
def findDoc (name parentId : String) (st : DriveState) : Option DriveFileRec :=
  st.files.find? (fun f => f.name = name && f.parentId = parentId && !f.isFolder)

/-- `createDoc` (drive.ts lines 88-104). -/
def createDoc (name parentId : String) (st : DriveState) :
    DriveFileRec × DriveState :=
  let f : DriveFileRec := { id := genId st.nextId, name := name,
                            parentId := parentId, isFolder := false }
  (f, { nextId := st.nextId + 1, files := st.files ++ [f] })

/-- `findOrCreateDoc` (drive.ts lines 109-121). -/
def findOrCreateDoc (name parentId : String) (st : DriveState) :
    DriveFileRec × DriveState :=
  match findDoc name parentId st with
  | some existing => (existing, st)
  | none => createDoc name parentId st

/-- The three fixed document identifiers of a topic
(`FolderStructure` docs record, folder-writer.ts lines 197-201). -/
structure TopicDocs where
  topicIndexId : String
  topicDevelopmentId : String
  voiceoverScriptId : String
deriving DecidableEq, Repr

/-- One topic entry of a `FolderStructure`. -/
structure TopicStructure where
  topicNumber : String
  topicName : String
  folderId : String
  docs : TopicDocs
deriving DecidableEq, Repr

/-- One module entry of a `FolderStructure`. -/
structure ModuleStructure where
  moduleNumber : Nat
  moduleName : String
  folderId : String
  topics : List TopicStructure
deriving DecidableEq, Repr

/-- `interface FolderStructure` (folder-writer.ts lines 187-204). -/
structure FolderStructure where
  courseFolderId : String
  modules : List ModuleStructure
deriving DecidableEq, Repr

/-- Sequencing of two store operations (one `await` after another): run `f`,
feed its value to `g` on the updated store. -/
def stBind {α β : Type} (f : DriveState → α × DriveState)
    (g : α → DriveState → β × DriveState) : DriveState → β × DriveState :=
  fun st => g (f st).1 (f st).2

/-- A store operation returning a value without touching the store. -/
def stPure {α : Type} (x : α) : DriveState → α × DriveState :=
  fun st => (x, st)

/-- Materialize one topic (folder-writer.ts lines 241-263): find-or-create
the topic folder, then its three canonical documents, in source order. -/
def matTopic (parentId : String) (t : Topic) :
    DriveState → TopicStructure × DriveState :=
  stBind (findOrCreateFolder (t.topicNumber ++ ". " ++ t.topicName) parentId) (fun folder =>
  stBind (findOrCreateDoc "01_Índice" folder.id) (fun d1 =>
  stBind (findOrCreateDoc "02_Desarrollo" folder.id) (fun d2 =>
  stBind (findOrCreateDoc "03_Guión" folder.id) (fun d3 =>
  stPure { topicNumber := t.topicNumber
           topicName := t.topicName
           folderId := folder.id
           docs := { topicIndexId := d1.id
                     topicDevelopmentId := d2.id
                     voiceoverScriptId := d3.id } }))))

/-- Materialize the topics of a module in spec order. -/
def matTopics (parentId : String) : List Topic →
    DriveState → List TopicStructure × DriveState
  | [] => stPure []
  | t :: rest =>
    stBind (matTopic parentId t) (fun ts =>
    stBind (matTopics parentId rest) (fun more =>
    stPure (ts :: more)))

/-- Materialize one module (folder-writer.ts lines 226-265): find-or-create
the `Módulo N. Name` folder, then its topics. -/
def matModule (courseFolderId : String) (m : Module) :
    DriveState → ModuleStructure × DriveState :=
  stBind (findOrCreateFolder
      ("Módulo " ++ toString m.moduleNumber ++ ". " ++ m.moduleName) courseFolderId)
    (fun folder =>
  stBind (matTopics folder.id m.topics) (fun ts =>
  stPure { moduleNumber := m.moduleNumber
           moduleName := m.moduleName
           folderId := folder.id
           topics := ts }))

/-- Materialize the modules in spec order. -/
def matModules (courseFolderId : String) : List Module →
    DriveState → List ModuleStructure × DriveState
  | [] => stPure []
  | m :: rest =>
    stBind (matModule courseFolderId m) (fun ms =>
    stBind (matModules courseFolderId rest) (fun more =>
    stPure (ms :: more)))

/-- `createCourseStructure` (folder-writer.ts lines 210-270): course folder,
then each module, then each topic, strictly in spec order. -/
def createCourseStructure (spec : CourseSpec) (rootFolderId : String) :
    DriveState → FolderStructure × DriveState :=
  stBind (findOrCreateFolder spec.courseName rootFolderId) (fun courseFolder =>
  stBind (matModules courseFolder.id spec.modules) (fun ms =>
  stPure { courseFolderId := courseFolder.id, modules := ms }))

/-! ## Pipeline orchestrator (pipeline/runner.ts)

The generating phase of `runPipeline` (lines 99-161) dispatches one task per
topic through the `p-limit` pool and `Promise.all`.  The embedding
sequentializes the tasks in dispatch order: each task's two awaited calls
(`generateTopicContent`, `writeTopicContent`) are summarized by an
`Except`-valued outcome oracle keyed by module number and topic number (the
thrown error message on failure), and each task contributes its `TopicResult`
and counter updates exactly once, as the shared report does in the source.
Completion order under concurrency is not modelled; the aggregate counts and
the set of per-topic results do not depend on it. -/

/-- `interface TopicResult` (runner.ts lines 9-21). -/
structure TopicResult where
  moduleNumber : Nat
  topicNumber : String
  topicName : String
  status : TopicStatus
  error : Option String := none
  folderId : Option String := none
  docs : Option TopicDocs := none
deriving DecidableEq, Repr

/-- The aggregate fields of the run report built by the generating phase
(`RunReport` of runner.ts lines 23-35, without the timestamps and
identifier echoes). -/
structure GenReport where
  totalTopics : Nat
  completedTopics : Nat
  failedTopics : Nat
  topicResults : List TopicResult
  errors : List String
deriving DecidableEq, Repr

/-- `generateAndWriteTopic` (runner.ts lines 180-214): the result record is
created up front carrying the pre-resolved folder and document identifiers
with status `failed`; the try block flips the status to `completed`, the
catch records the error message.  `outcome` summarizes the two awaited
calls of the try block. -/
def generateAndWriteTopic (outcome : Except String Unit) (moduleNumber : Nat)
    (topic : Topic) (ts : TopicStructure) : TopicResult :=
  let result : TopicResult :=
    { moduleNumber := moduleNumber
      topicNumber := topic.topicNumber
      topicName := topic.topicName
      status := .failed
      folderId := some ts.folderId
      docs := some ts.docs }
  match outcome with
  | .ok _ => { result with status := .completed }
  | .error e => { result with status := .failed, error := some e }

/-- One topic task of the generating phase (runner.ts lines 112-157): look
the topic up in the materialized structure (an error line when absent), run
`generateAndWriteTopic`, record the result and update the counters. -/
def genTopicStep (outcome : Nat → String → Except String Unit) (moduleNumber : Nat)
    (ms : ModuleStructure) (r : GenReport) (t : Topic) : GenReport :=
  match ms.topics.find? (fun s => s.topicNumber = t.topicNumber) with
  | none =>
    { r with errors := r.errors ++
        ["Topic " ++ t.topicNumber ++ " not found in module " ++ toString moduleNumber] }
  | some ts =>
    let res := generateAndWriteTopic (outcome moduleNumber t.topicNumber) moduleNumber t ts
    if res.status = .completed then
      { r with topicResults := r.topicResults ++ [res]
               completedTopics := r.completedTopics + 1 }
    else
      { r with topicResults := r.topicResults ++ [res]
               failedTopics := r.failedTopics + 1
               errors := r.errors ++
                 (match res.error with
                  | some e => ["Topic " ++ t.topicNumber ++ ": " ++ e]
                  | none => []) }

/-- One module of the generating phase (runner.ts lines 102-158): look the
module up in the structure (an error line when absent), then process its
topics. -/
def genModuleStep (outcome : Nat → String → Except String Unit)
    (fs : FolderStructure) (r : GenReport) (m : Module) : GenReport :=
  match fs.modules.find? (fun s => s.moduleNumber = m.moduleNumber) with
  | none =>
    { r with errors := r.errors ++
        ["Module " ++ toString m.moduleNumber ++ " not found in structure"] }
  | some ms => m.topics.foldl (genTopicStep outcome m.moduleNumber ms) r

/-- Total topic count of a spec (runner.ts lines 77-79). -/
def totalTopics (spec : CourseSpec) : Nat :=
  spec.modules.foldl (fun n m => n + m.topics.length) 0

/-- The generating phase of `runPipeline` over a parsed spec and a
materialized structure. -/
def generatePhase (spec : CourseSpec) (fs : FolderStructure)
    (outcome : Nat → String → Except String Unit) : GenReport :=
  spec.modules.foldl (genModuleStep outcome fs)
    { totalTopics := totalTopics spec
      completedTopics := 0
      failedTopics := 0
      topicResults := []
      errors := [] }

/-- Every module and topic of the spec can be looked up in the materialized
structure (the premise that materialization succeeded for this spec). -/
def structureMatches (spec : CourseSpec) (fs : FolderStructure) : Bool :=
  spec.modules.all (fun m =>
    match fs.modules.find? (fun s => s.moduleNumber = m.moduleNumber) with
    | none => false
    | some ms =>
      m.topics.all (fun t =>
        (ms.topics.find? (fun s => s.topicNumber = t.topicNumber)).isSome))

/-- The test double of the failure-isolation property: the generation/write
call fails (with message `msg`) exactly for the topic keyed by
`(failModule, failTopic)` and succeeds for every other topic. -/
def singleFailOutcome (failModule : Nat) (failTopic : String) (msg : String) :
    Nat → String → Except String Unit :=
  fun m t => if m = failModule && t = failTopic then .error msg else .ok ()

/-- The (module number, topic number) keys of one module's topics. -/
def moduleKeys (m : Module) : List (Nat × String) :=
  m.topics.map (fun t => (m.moduleNumber, t.topicNumber))

/-- All (module number, topic number) keys of a spec, in dispatch order. -/
def topicKeys (spec : CourseSpec) : List (Nat × String) :=
  spec.modules.flatMap moduleKeys

/-- Whether an outcome is a thrown error. -/
def statusFail : Except String Unit → Bool
  | .ok _ => false
  | .error _ => true

/-- The (module number, topic number, status) projection of a TopicResult. -/
def projRes (res : TopicResult) : Nat × String × TopicStatus :=
  (res.moduleNumber, res.topicNumber, res.status)

/-- Store extension: `st'` holds the resources of `st` (in order) plus some
later-created ones.  Every operation of this component only appends
resources, so runs relate by `StExt`. -/
def StExt (st st' : DriveState) : Prop :=
  ∃ δ, st'.files = st.files ++ δ

/-- A store operation whose state change is an extension and which replays
as a pure lookup on any extension of its own post-state: it returns the same
value and leaves the store untouched.  Idempotence of the materializer is
the replay property at the post-state itself. -/
def StLaw {α : Type} (f : DriveState → α × DriveState) : Prop :=
  ∀ st, StExt st (f st).2 ∧ ∀ st', StExt (f st).2 st' → f st' = ((f st).1, st')

/-! ## Claim-level auxiliary definitions -/

/-- The example outline of the specification's parse scenario. -/
def c1Input : String :=
  "MÓDULO 1: Finanzas básicas\n1.1 Introducción\n1.2 Presupuesto\nMÓDULO 2: Inversión\n2.1 Acciones"

/-- An outline whose first module block holds no recognizable topic line:
the discarded block still advances the module counter. -/
def c2Input : String := "MÓDULO 1: A\nMÓDULO 2: B\nB1.1 Tema"

/-- A marker line that carries objective text after the colon, followed by a
continuation line. -/
def c7Input : String := "Objetivo: dominar la bolsa\ny ganar"

/-- A draft voiceover whose final line is a markdown header ending in the
canonical closing sentence. -/
def c3Draft : String := "# Nos vemos en la siguiente clase."

/-- A line is "only the objective marker itself": nothing remains after the
decorations, the marker word and the trailing colon/whitespace. -/
def isOnlyMarker (l : List Char) : Bool :=
  (stripObjMarker l).isEmpty && objHeaderTest l

/-- A module-marker line in the sense of the specification's parser
algorithm: a recognized explicit or letter-prefixed module header. -/
def claimModuleMarker (l : List Char) : Bool :=
  (matchModulo l).isSome || ((matchModuleHeader l).isSome && !hasTopicShape l)

/-- Modelled from the claim's words (C7), for comparison with
`extractObjective`: locate a line containing an objective marker; if that
line is only the marker itself, collect exactly the subsequent lines until a
module-marker line is reached; otherwise strip the marker prefix from the
same line and continue collecting; join the collected fragments with single
spaces; default to the fixed placeholder sentence. -/
def objFindClaim : List (List Char) → Option String
  | [] => none
  | l :: rest =>
    if includes l "Objetivo" || includes l "objetivo" || includes l "🎯" then
      let tail := rest.takeWhile (fun x => !claimModuleMarker x)
      some (String.mk (List.intercalate [' ']
        (if isOnlyMarker l then tail else stripObjMarker l :: tail)))
    else objFindClaim rest

/-- The claim-level objective extractor (see `objFindClaim`). -/
def extractObjectiveClaim (lines : List (List Char)) : String :=
  (objFindClaim lines).getD "Completar el curso satisfactoriamente"

/-- The collection loop of the amended objective description: the lines of
the suffix up to the first line whose first character is a module-marker
character, with horizontal-rule lines removed. -/
def objCollectAmended (suffix : List (List Char)) : List (List Char) :=
  (suffix.takeWhile (fun x => !objStopLine x)).filter (fun x => !isRuleLine x)

/-- The amended objective description (C7): find the first line containing a
marker; when the line starts with the marker the whole line is skipped (even
if objective text follows the marker) and collection starts at the next
line; otherwise the line is recorded with the marker strip attempted (which
cannot fire in this branch) and collection restarts at that same line, so it
is collected a second time; collection stops at the first line starting with
a module-marker character and skips rule lines; fragments are joined and
whitespace runs collapsed to single spaces. -/
def objFindAmended : List (List Char) → Option String
  | [] => none
  | l :: rest =>
    if includes l "Objetivo" || includes l "objetivo" || includes l "🎯" then
      some (objJoin
        (if objHeaderTest l then objCollectAmended rest
         else stripObjMarker l :: objCollectAmended (l :: rest)))
    else objFindAmended rest

/-- The amended objective extractor (see `objFindAmended`). -/
def extractObjectiveAmended (lines : List (List Char)) : String :=
  (objFindAmended lines).getD "Completar el curso satisfactoriamente"

/-- A pending topic with the given number and name (witness data). -/
def wTopic (n name : String) : Topic :=
  { topicNumber := n, topicName := name, status := some .pending }

/-- A small two-module spec used by witnesses. -/
def wSpec : CourseSpec :=
  { courseName := "Curso W"
    level := "básico"
    objective := "Objetivo W"
    modules :=
      [ { moduleNumber := 1, moduleName := "Primero"
          topics := [wTopic "1.1" "Uno", wTopic "1.2" "Dos"] }
      , { moduleNumber := 2, moduleName := "Segundo"
          topics := [wTopic "2.1" "Tres"] } ] }

/-- The structure materialized for `wSpec` from an empty store. -/
def wStructure : FolderStructure :=
  (createCourseStructure wSpec "root" { nextId := 0, files := [] }).1

/-! ## Theorems -/

/-! ### Parser invariants: emitted modules hold topics, numbers increase -/

/-- Modules emitted by `closeModules` either were already emitted or are the
closed current module, which is emitted only when it holds a topic. -/
theorem closeModules_mem {ms : List Module} {cur : Option Module} {m : Module}
    (h : m ∈ closeModules ms cur) :
    m ∈ ms ∨ (cur = some m ∧ m.topics ≠ []) := by
  unfold closeModules at h
  cases cur with
  | none => exact Or.inl h
  | some m0 =>
    by_cases h0 : m0.topics.isEmpty
    · simp [h0] at h
      exact Or.inl h
    · simp [h0, List.mem_append] at h
      rcases h with h | h
      · exact Or.inl h
      · subst h
        exact Or.inr ⟨rfl, by simpa [List.isEmpty_iff] using h0⟩

/-- Invariant preserved by the `parseModules` loop: every emitted module has
a nonempty topic list. -/
def pmTopicsInv (st : PMState) : Prop :=
  ∀ m ∈ st.modules, m.topics ≠ []

theorem closeModules_nonempty {st : PMState} (h : pmTopicsInv st) :
    ∀ m ∈ closeModules st.modules st.current, m.topics ≠ [] := by
  intro m hm
  rcases closeModules_mem hm with h' | ⟨_, h'⟩
  · exact h m h'
  · exact h'

theorem pmLine_topicsInv (st : PMState) (l : List Char) (h : pmTopicsInv st) :
    pmTopicsInv (pmLine st l) := by
  unfold pmLine
  split
  · exact h
  · split
    · intro m hm
      exact closeModules_nonempty h m hm
    · split
      · intro m hm
        exact closeModules_nonempty h m hm
      · split
        · intro m hm
          exact h m hm
        · unfold pmResultLine
          split
          · split
            · intro m hm
              exact h m hm
            · exact h
          · exact h

theorem pmFold_topicsInv (lines : List (List Char)) (st : PMState)
    (h : pmTopicsInv st) : pmTopicsInv (lines.foldl pmLine st) := by
  induction lines generalizing st with
  | nil => exact h
  | cons l rest ih => exact ih _ (pmLine_topicsInv st l h)

theorem parseAlternativeFormat_topics_nonempty (lines : List (List Char)) :
    ∀ m ∈ parseAlternativeFormat lines, m.topics ≠ [] := by
  unfold parseAlternativeFormat
  dsimp only
  split
  · intro m hm
    simp at hm
  · intro m hm
    simp only [List.mem_singleton] at hm
    subst hm
    rename_i hne
    simpa [List.isEmpty_iff] using hne

theorem parseModules_topics_nonempty (lines : List (List Char)) :
    ∀ m ∈ parseModules lines, m.topics ≠ [] := by
  have hinv : pmTopicsInv (lines.foldl pmLine ⟨[], none, 0⟩) :=
    pmFold_topicsInv lines _ (by intro m hm; simp at hm)
  have hclose := closeModules_nonempty hinv
  unfold parseModules
  dsimp only
  split
  · exact parseAlternativeFormat_topics_nonempty lines
  · exact hclose

/-- Invariant of the `parseModules` loop for module numbering: the emitted
numbers prefixed with 0 are strictly increasing (hence positive and
distinct), bounded by the counter, and the open module's number is positive,
bounded by the counter and above every emitted number. -/
def pmNumInv (st : PMState) : Prop :=
  List.Pairwise (· < ·) (0 :: st.modules.map (fun m => m.moduleNumber)) ∧
  (∀ n ∈ st.modules.map (fun m => m.moduleNumber), n ≤ st.counter) ∧
  (∀ m, st.current = some m →
    m.moduleNumber ≤ st.counter ∧ 0 < m.moduleNumber ∧
    ∀ n ∈ st.modules.map (fun m' => m'.moduleNumber), n < m.moduleNumber)

theorem pairwise_lt_append_singleton {l : List Nat} {x : Nat}
    (h : List.Pairwise (· < ·) l) (hx : ∀ a ∈ l, a < x) :
    List.Pairwise (· < ·) (l ++ [x]) := by
  rw [List.pairwise_append]
  refine ⟨h, by simp, ?_⟩
  intro a ha b hb
  simp only [List.mem_singleton] at hb
  subst hb
  exact hx a ha

theorem closeModules_numInv {st : PMState} (h : pmNumInv st) :
    List.Pairwise (· < ·)
      (0 :: (closeModules st.modules st.current).map (fun m => m.moduleNumber)) ∧
    ∀ n ∈ (closeModules st.modules st.current).map (fun m => m.moduleNumber),
      n ≤ st.counter := by
  obtain ⟨h1, h2, h3⟩ := h
  unfold closeModules
  cases hc : st.current with
  | none => exact ⟨h1, h2⟩
  | some m0 =>
    dsimp only
    by_cases h0 : m0.topics.isEmpty
    · rw [if_pos h0]
      exact ⟨h1, h2⟩
    · rw [if_neg h0]
      obtain ⟨hle, hpos, habove⟩ := h3 m0 hc
      constructor
      · have heq : (0 :: (st.modules ++ [m0]).map (fun m => m.moduleNumber)) =
            (0 :: st.modules.map (fun m => m.moduleNumber)) ++ [m0.moduleNumber] := by
          simp
        rw [heq]
        refine pairwise_lt_append_singleton h1 ?_
        intro a ha
        rcases List.mem_cons.mp ha with rfl | ha'
        · exact hpos
        · exact habove a ha'
      · intro n hn
        rw [List.map_append] at hn
        rcases List.mem_append.mp hn with hn' | hn'
        · exact h2 n hn'
        · simp only [List.map_cons, List.map_nil, List.mem_singleton] at hn'
          subst hn'
          exact hle

theorem pmOpenModule_numInv (st : PMState) (name : String) (h : pmNumInv st) :
    pmNumInv (pmOpenModule st name) := by
  obtain ⟨hp, hb⟩ := closeModules_numInv h
  refine ⟨hp, ?_, ?_⟩
  · intro n hn
    exact Nat.le_succ_of_le (hb n hn)
  · intro m hm
    simp only [pmOpenModule, Option.some.injEq] at hm
    subst hm
    refine ⟨Nat.le_refl _, Nat.succ_pos _, ?_⟩
    intro n hn
    exact Nat.lt_succ_of_le (hb n hn)

theorem pmTopicLine_numInv (st : PMState) (ds ts rawName : List Char)
    (h : pmNumInv st) : pmNumInv (pmTopicLine st ds ts rawName) := by
  obtain ⟨h1, h2, h3⟩ := h
  unfold pmTopicLine
  cases hc : st.current with
  | some m =>
    obtain ⟨hle, hpos, habove⟩ := h3 m hc
    refine ⟨h1, h2, ?_⟩
    intro m' hm'
    dsimp only at hm'
    rw [Option.some.injEq] at hm'
    subst hm'
    split
    · exact ⟨hle, hpos, habove⟩
    · exact ⟨hle, hpos, habove⟩
  | none =>
    refine ⟨h1, ?_, ?_⟩
    · intro n hn
      exact Nat.le_succ_of_le (h2 n hn)
    · intro m' hm'
      dsimp only at hm'
      rw [Option.some.injEq] at hm'
      subst hm'
      constructor
      · split <;> exact Nat.le_refl _
      · constructor
        · split <;> exact Nat.succ_pos _
        · intro n hn
          have := h2 n hn
          split <;> exact Nat.lt_succ_of_le (h2 n hn)

theorem pmResultLine_numInv (st : PMState) (l : List Char) (h : pmNumInv st) :
    pmNumInv (pmResultLine st l) := by
  obtain ⟨h1, h2, h3⟩ := h
  unfold pmResultLine
  split
  · cases hc : st.current with
    | some m =>
      obtain ⟨hle, hpos, habove⟩ := h3 m hc
      refine ⟨h1, h2, ?_⟩
      intro m' hm'
      dsimp only at hm'
      rw [Option.some.injEq] at hm'
      subst hm'
      exact ⟨hle, hpos, habove⟩
    | none => exact ⟨h1, h2, h3⟩
  · exact ⟨h1, h2, h3⟩

theorem pmLine_numInv (st : PMState) (l : List Char) (h : pmNumInv st) :
    pmNumInv (pmLine st l) := by
  unfold pmLine
  split
  · exact h
  · split
    · exact pmOpenModule_numInv st _ h
    · split
      · exact pmOpenModule_numInv st _ h
      · split
        · exact pmTopicLine_numInv st _ _ _ h
        · exact pmResultLine_numInv st l h

theorem pmFold_numInv (lines : List (List Char)) (st : PMState)
    (h : pmNumInv st) : pmNumInv (lines.foldl pmLine st) := by
  induction lines generalizing st with
  | nil => exact h
  | cons l rest ih => exact ih _ (pmLine_numInv st l h)

theorem parseModules_pairwise (lines : List (List Char)) :
    List.Pairwise (· < ·)
      (0 :: (parseModules lines).map (fun m => m.moduleNumber)) := by
  have hinv : pmNumInv (lines.foldl pmLine ⟨[], none, 0⟩) := by
    refine pmFold_numInv lines _ ⟨?_, ?_, ?_⟩
    · simp
    · intro n hn
      simp at hn
    · intro m hm
      simp at hm
  unfold parseModules
  dsimp only
  split
  · unfold parseAlternativeFormat
    dsimp only
    split
    · simp
    · simp
  · exact (closeModules_numInv hinv).1

/-- C1: on the input `MÓDULO 1: Finanzas básicas` / `1.1 Introducción` /
`1.2 Presupuesto` / `MÓDULO 2: Inversión` / `2.1 Acciones`,
`parseIndexContent` does not return two modules: the topic regex of the
primary parser requires a `B`/`I` letter prefix, so no topic attaches to
either MÓDULO block, both blocks are discarded as empty, and the fallback
parser emits a single synthetic module whose five topics include the two
MÓDULO header lines themselves (topic numbers 1, 1.1, 1.2, 4, 2.1). -/
theorem parseIndexContent_c1_eval :
    ((parseIndexContent "2024-01-01T00:00:00.000Z" c1Input).modules.map
        (fun m => (m.moduleNumber, m.moduleName,
          m.topics.map (fun t => (t.topicNumber, t.topicName))))) =
      [(1, "Contenido del curso",
        [("1", "MÓDULO 1: Finanzas básicas"), ("1.1", "Introducción"),
         ("1.2", "Presupuesto"), ("4", "MÓDULO 2: Inversión"),
         ("2.1", "Acciones")])] ∧
    (parseIndexContent "2024-01-01T00:00:00.000Z" c1Input).modules.length ≠ 2 := by
  constructor
  · rfl
  · decide

/-- C3 (counterexample evaluation): the required-ending fix runs before
`cleanMarkdownToPlainText`, so a draft voiceover consisting of the markdown
header `# Nos vemos en la siguiente clase.` passes the ending check
untouched and is then uppercased by the header cleanup: the stored script
ends with `NOS VEMOS EN LA SIGUIENTE CLASE.` and not with the canonical
closing sentence. -/
theorem finalizeVoiceover_c3_eval :
    finalizeVoiceover c3Draft = "NOS VEMOS EN LA SIGUIENTE CLASE." ∧
    jsEndsWith (finalizeVoiceover c3Draft).data requiredEnding = false := by
  constructor
  · rfl
  · rfl

/-- C6 (counterexample): `parseIndexContent` is not a pure function of the
text alone — the `metadata.parsedAt` timestamp taken from the clock differs
between two calls, so two calls on identical input yield different
`CourseSpec` values. -/
theorem parseIndexContent_c6_counter :
    parseIndexContent "2024-01-01T00:00:00.000Z" "x" ≠
      parseIndexContent "2024-01-01T00:00:01.000Z" "x" := by
  decide

/-- C6 (amended): every field of the `CourseSpec` except the clock-derived
`metadata` is a pure function of the input text: two calls at any two clock
values agree on course name, level, objective, target audience and the full
module list. -/
theorem parseIndexContent_c6_amended (now1 now2 content : String) :
    (parseIndexContent now1 content).courseName =
      (parseIndexContent now2 content).courseName ∧
    (parseIndexContent now1 content).level = (parseIndexContent now2 content).level ∧
    (parseIndexContent now1 content).objective =
      (parseIndexContent now2 content).objective ∧
    (parseIndexContent now1 content).targetAudience =
      (parseIndexContent now2 content).targetAudience ∧
    (parseIndexContent now1 content).modules =
      (parseIndexContent now2 content).modules :=
  ⟨rfl, rfl, rfl, rfl, rfl⟩

/-- C10: the `TopicResult` produced by a topic task always carries the
pre-resolved folder identifier and the three document identifiers, also on
failure; a failed result has its error message set and the same identifiers
a successful one would carry. -/
theorem generateAndWriteTopic_c10 (outcome : Except String Unit) (mN : Nat)
    (topic : Topic) (ts : TopicStructure) (e : String) :
    (generateAndWriteTopic outcome mN topic ts).folderId = some ts.folderId ∧
    (generateAndWriteTopic outcome mN topic ts).docs = some ts.docs ∧
    (generateAndWriteTopic (.error e) mN topic ts).status = .failed ∧
    (generateAndWriteTopic (.error e) mN topic ts).error = some e ∧
    (generateAndWriteTopic (.error e) mN topic ts).folderId =
      (generateAndWriteTopic (.ok ()) mN topic ts).folderId ∧
    (generateAndWriteTopic (.error e) mN topic ts).docs =
      (generateAndWriteTopic (.ok ()) mN topic ts).docs := by
  cases outcome <;> exact ⟨rfl, rfl, rfl, rfl, rfl, rfl⟩

/-- C2 (counterexample): the module counter advances on every recognized
module header, including blocks later discarded for holding no topic, so
the emitted module numbers need not start at 1: on `c2Input` the single
emitted module has number 2. -/
theorem parseModules_c2_counter :
    ((parseIndexContent "2024-01-01T00:00:00.000Z" c2Input).modules.map
        (fun m => m.moduleNumber)) = [2] ∧
    ((parseIndexContent "2024-01-01T00:00:00.000Z" c2Input).modules.map
        (fun m => m.moduleNumber)) ≠
      List.range' 1
        (parseIndexContent "2024-01-01T00:00:00.000Z" c2Input).modules.length := by
  constructor
  · rfl
  · decide

/-- C7 (counterexample): on `Objetivo: dominar la bolsa` / `y ganar` the
code discards the objective text following the marker on the marker line
(the header test checks only that the line starts with the marker, not that
it is the marker alone), while the claim's algorithm keeps it. -/
theorem extractObjective_c7_counter :
    extractObjective (splitLines c7Input) = "y ganar" ∧
    extractObjectiveClaim (splitLines c7Input) = "dominar la bolsa y ganar" ∧
    extractObjective (splitLines c7Input) ≠
      extractObjectiveClaim (splitLines c7Input) := by
  refine ⟨rfl, rfl, ?_⟩
  decide

/-- C2 (amended): the module numbers of every parsed spec are strictly
increasing positive integers in list order — they are assigned in
recognition order of module headers, but the counter also advances for
module blocks later discarded as empty, so the sequence may skip values and
need not start at 1.  (Strict increase with the prefixed 0 encodes both
positivity and distinctness.) -/
theorem parseIndexContent_c2_amended (now content : String) :
    List.Pairwise (· < ·)
      (0 :: (parseIndexContent now content).modules.map (fun m => m.moduleNumber)) :=
  parseModules_pairwise (splitLines content)

/-- C8: no module with an empty topic list ever appears in the parse result:
both the primary parser (which discards topicless module blocks on close)
and the single-module fallback (which emits its synthetic module only when
it collected a topic) emit only modules with at least one topic. -/
theorem parseIndexContent_c8 (now content : String) :
    ((parseIndexContent now content).modules.all
      (fun m => !m.topics.isEmpty)) = true := by
  rw [List.all_eq_true]
  intro m hm
  have h := parseModules_topics_nonempty (splitLines content) m hm
  simpa [List.isEmpty_iff] using h

/-- The objective collection loop is the takeWhile/filter combination of the
amended description. -/
theorem objCollect_eq (xs : List (List Char)) :
    objCollect xs = objCollectAmended xs := by
  induction xs with
  | nil => rfl
  | cons l rest ih =>
    unfold objCollect objCollectAmended
    by_cases h1 : objStopLine l
    · simp [h1, List.takeWhile_cons]
    · by_cases h2 : isRuleLine l
      · simp only [h1, Bool.not_true, if_false, Bool.not_false, if_neg, h2, if_true]
        rw [List.takeWhile_cons]
        simp only [h1, Bool.not_true, Bool.not_false, if_true, List.filter_cons]
        simp only [h2, Bool.not_true, if_false]
        simpa [objCollectAmended] using ih
      · simp only [h1, Bool.not_true, if_false, h2]
        rw [List.takeWhile_cons]
        simp only [h1, Bool.not_false, if_true, List.filter_cons]
        simp only [h2, Bool.not_true, Bool.not_false, if_true]
        rw [ih]
        rfl

/-- The scanning loops of the code and of the amended description agree. -/
theorem objFind_eq (lines : List (List Char)) :
    objFind lines = objFindAmended lines := by
  induction lines with
  | nil => rfl
  | cons l rest ih =>
    unfold objFind objFindAmended
    by_cases h : (includes l "Objetivo" || includes l "objetivo" || includes l "🎯")
    · simp only [h, if_true]
      rw [objCollect_eq, objCollect_eq]
    · simp only [h, if_false]
      exact ih

/-- C7 (amended): the code's objective extraction equals, on every input,
the amended description: the first line containing a marker is located; a
line that merely starts with the marker is skipped entirely (its own
objective text included); a line containing the marker elsewhere is
collected twice (once via the no-op prefix strip, once by the loop);
collection stops at the first line starting with one of the module-marker
characters (the bare letters M, Ó, D, U, L, O among them) and skips
horizontal-rule lines; fragments are joined with whitespace collapsed; the
fixed placeholder is returned when no marker line exists. -/
theorem extractObjective_c7_amended (lines : List (List Char)) :
    extractObjective lines = extractObjectiveAmended lines := by
  unfold extractObjective extractObjectiveAmended
  rw [objFind_eq]

/-! ### Idempotent materialization (C5) -/

theorem StExt.rfl {st : DriveState} : StExt st st :=
  ⟨[], by simp⟩

theorem StExt.trans {a b c : DriveState} (h1 : StExt a b) (h2 : StExt b c) :
    StExt a c := by
  obtain ⟨d1, hd1⟩ := h1
  obtain ⟨d2, hd2⟩ := h2
  exact ⟨d1 ++ d2, by rw [hd2, hd1, List.append_assoc]⟩

theorem find?_append_of_some {α : Type} {p : α → Bool} {l1 l2 : List α} {x : α}
    (h : l1.find? p = some x) : (l1 ++ l2).find? p = some x := by
  induction l1 with
  | nil => simp at h
  | cons a t ih =>
    by_cases ha : p a
    · rw [List.find?_cons_of_pos _ ha] at h
      simpa [List.find?_cons_of_pos _ ha] using h
    · rw [List.find?_cons_of_neg _ ha] at h
      simpa [List.find?_cons_of_neg _ ha] using ih h

theorem find?_append_of_none {α : Type} {p : α → Bool} {l1 l2 : List α}
    (h : l1.find? p = none) : (l1 ++ l2).find? p = l2.find? p := by
  induction l1 with
  | nil => simp
  | cons a t ih =>
    by_cases ha : p a
    · rw [List.find?_cons_of_pos _ ha] at h
      simp at h
    · rw [List.find?_cons_of_neg _ ha] at h
      simpa [List.find?_cons_of_neg _ ha] using ih h

theorem stLaw_findOrCreateFolder (name parentId : String) :
    StLaw (findOrCreateFolder name parentId) := by
  intro st
  unfold findOrCreateFolder findFolder createFolder
  cases hf : st.files.find?
      (fun f => f.name = name && f.parentId = parentId && f.isFolder) with
  | some f =>
    refine ⟨StExt.rfl, ?_⟩
    intro st' hext
    obtain ⟨δ, hδ⟩ := hext
    dsimp only
    rw [hδ, find?_append_of_some hf]
  | none =>
    constructor
    · exact ⟨_, rfl⟩
    · intro st' hext
      obtain ⟨δ, hδ⟩ := hext
      dsimp only at hδ ⊢
      rw [hδ, List.append_assoc, find?_append_of_none hf]
      simp

theorem stLaw_findOrCreateDoc (name parentId : String) :
    StLaw (findOrCreateDoc name parentId) := by
  intro st
  unfold findOrCreateDoc findDoc createDoc
  cases hf : st.files.find?
      (fun f => f.name = name && f.parentId = parentId && !f.isFolder) with
  | some f =>
    refine ⟨StExt.rfl, ?_⟩
    intro st' hext
    obtain ⟨δ, hδ⟩ := hext
    dsimp only
    rw [hδ, find?_append_of_some hf]
  | none =>
    constructor
    · exact ⟨_, rfl⟩
    · intro st' hext
      obtain ⟨δ, hδ⟩ := hext
      dsimp only at hδ ⊢
      rw [hδ, List.append_assoc, find?_append_of_none hf]
      simp

theorem stLaw_pure {α : Type} (x : α) : StLaw (stPure x) := by
  intro st
  exact ⟨StExt.rfl, fun st' _ => rfl⟩

theorem stLaw_bind {α β : Type} {f : DriveState → α × DriveState}
    {g : α → DriveState → β × DriveState}
    (hf : StLaw f) (hg : ∀ a, StLaw (g a)) :
    StLaw (stBind f g) := by
  intro st
  constructor
  · exact ((hf st).1).trans ((hg (f st).1 (f st).2).1)
  · intro st' hext
    have hmid : StExt (f st).2 st' := ((hg (f st).1 (f st).2).1).trans hext
    show g (f st').1 (f st').2 = _
    rw [(hf st).2 st' hmid]
    exact (hg (f st).1 (f st).2).2 st' hext

theorem stLaw_matTopic (parentId : String) (t : Topic) :
    StLaw (matTopic parentId t) :=
  stLaw_bind (stLaw_findOrCreateFolder _ _) (fun folder =>
    stLaw_bind (stLaw_findOrCreateDoc "01_Índice" folder.id) (fun _ =>
      stLaw_bind (stLaw_findOrCreateDoc "02_Desarrollo" folder.id) (fun _ =>
        stLaw_bind (stLaw_findOrCreateDoc "03_Guión" folder.id) (fun _ =>
          stLaw_pure _))))

theorem stLaw_matTopics (parentId : String) (ts : List Topic) :
    StLaw (matTopics parentId ts) := by
  induction ts with
  | nil => exact stLaw_pure _
  | cons t rest ih =>
    exact stLaw_bind (stLaw_matTopic parentId t) (fun r =>
      stLaw_bind ih (fun rs => stLaw_pure _))

theorem stLaw_matModule (courseFolderId : String) (m : Module) :
    StLaw (matModule courseFolderId m) :=
  stLaw_bind (stLaw_findOrCreateFolder _ _) (fun folder =>
    stLaw_bind (stLaw_matTopics folder.id m.topics) (fun _ =>
      stLaw_pure _))

theorem stLaw_matModules (courseFolderId : String) (ms : List Module) :
    StLaw (matModules courseFolderId ms) := by
  induction ms with
  | nil => exact stLaw_pure _
  | cons m rest ih =>
    exact stLaw_bind (stLaw_matModule courseFolderId m) (fun r =>
      stLaw_bind ih (fun rs => stLaw_pure _))

theorem stLaw_createCourseStructure (spec : CourseSpec) (rootFolderId : String) :
    StLaw (createCourseStructure spec rootFolderId) :=
  stLaw_bind (stLaw_findOrCreateFolder _ _) (fun folder =>
    stLaw_bind (stLaw_matModules folder.id spec.modules) (fun _ =>
      stLaw_pure _))

/-- C5: materialization is idempotent.  For every spec, root and initial
store state, running `createCourseStructure` a second time on the store left
by the first run returns the identical `FolderStructure` identifier tree and
leaves the store exactly as it was: every lookup of the second run finds the
resource created or found by the first run and nothing new is created. -/
theorem createCourseStructure_c5_idempotent (spec : CourseSpec)
    (rootFolderId : String) (st0 : DriveState) :
    createCourseStructure spec rootFolderId
        (createCourseStructure spec rootFolderId st0).2 =
      ((createCourseStructure spec rootFolderId st0).1,
       (createCourseStructure spec rootFolderId st0).2) :=
  (stLaw_createCourseStructure spec rootFolderId st0).2 _ StExt.rfl

/-! ### Failure isolation in the generating phase (C4) -/

theorem gawt_proj (o : Except String Unit) (mN : Nat) (t : Topic)
    (ts : TopicStructure) :
    projRes (generateAndWriteTopic o mN t ts) =
      (mN, t.topicNumber, if statusFail o then .failed else .completed) := by
  cases o <;> rfl

theorem gawt_status (o : Except String Unit) (mN : Nat) (t : Topic)
    (ts : TopicStructure) :
    (generateAndWriteTopic o mN t ts).status =
      (if statusFail o then .failed else .completed) := by
  cases o <;> rfl

theorem genTopicStep_found {outcome : Nat → String → Except String Unit}
    {mN : Nat} {ms : ModuleStructure} {t : Topic} {ts : TopicStructure}
    {r : GenReport}
    (hts : ms.topics.find? (fun s => s.topicNumber = t.topicNumber) = some ts) :
    genTopicStep outcome mN ms r t =
      (if statusFail (outcome mN t.topicNumber) then
        { r with
            topicResults := r.topicResults ++
              [generateAndWriteTopic (outcome mN t.topicNumber) mN t ts]
            failedTopics := r.failedTopics + 1
            errors := r.errors ++
              (match (generateAndWriteTopic (outcome mN t.topicNumber) mN t ts).error with
               | some e => ["Topic " ++ t.topicNumber ++ ": " ++ e]
               | none => []) }
      else
        { r with
            topicResults := r.topicResults ++
              [generateAndWriteTopic (outcome mN t.topicNumber) mN t ts]
            completedTopics := r.completedTopics + 1 }) := by
  unfold genTopicStep
  rw [hts]
  dsimp only
  cases ho : outcome mN t.topicNumber with
  | ok u => simp [generateAndWriteTopic, statusFail, ho]
  | error e => simp [generateAndWriteTopic, statusFail, ho]

theorem genTopics_fold (outcome : Nat → String → Except String Unit) (mN : Nat)
    (ms : ModuleStructure) (topics : List Topic) (r : GenReport)
    (h : ∀ t ∈ topics,
      (ms.topics.find? (fun s => s.topicNumber = t.topicNumber)).isSome) :
    (topics.foldl (genTopicStep outcome mN ms) r).topicResults.map projRes =
        r.topicResults.map projRes ++ topics.map (fun t =>
          (mN, t.topicNumber,
            if statusFail (outcome mN t.topicNumber) then TopicStatus.failed
            else TopicStatus.completed)) ∧
      (topics.foldl (genTopicStep outcome mN ms) r).completedTopics =
        r.completedTopics +
          topics.countP (fun t => !statusFail (outcome mN t.topicNumber)) ∧
      (topics.foldl (genTopicStep outcome mN ms) r).failedTopics =
        r.failedTopics +
          topics.countP (fun t => statusFail (outcome mN t.topicNumber)) ∧
      (topics.foldl (genTopicStep outcome mN ms) r).totalTopics = r.totalTopics := by
  induction topics generalizing r with
  | nil => simp
  | cons t rest ih =>
    obtain ⟨ts, hts⟩ := Option.isSome_iff_exists.mp (h t (List.mem_cons_self t rest))
    have hrest : ∀ t' ∈ rest,
        (ms.topics.find? (fun s => s.topicNumber = t'.topicNumber)).isSome :=
      fun t' ht' => h t' (List.mem_cons_of_mem t ht')
    simp only [List.foldl_cons]
    rw [genTopicStep_found hts]
    by_cases hf : statusFail (outcome mN t.topicNumber)
    · rw [if_pos hf]
      obtain ⟨e1, e2, e3, e4⟩ := ih _ hrest
      refine ⟨?_, ?_, ?_, ?_⟩
      · rw [e1]
        simp [gawt_proj, hf, List.countP_cons]
      · rw [e2]
        simp [hf, List.countP_cons]
      · rw [e3]
        simp [hf, List.countP_cons]
        omega
      · rw [e4]
    · rw [if_neg hf]
      obtain ⟨e1, e2, e3, e4⟩ := ih _ hrest
      refine ⟨?_, ?_, ?_, ?_⟩
      · rw [e1]
        simp [gawt_proj, hf, List.countP_cons]
      · rw [e2]
        simp [hf, List.countP_cons]
        omega
      · rw [e3]
        simp [hf, List.countP_cons]
      · rw [e4]

theorem genModules_fold (outcome : Nat → String → Except String Unit)
    (fs : FolderStructure) (modules : List Module) (r : GenReport)
    (h : ∀ m ∈ modules, ∃ ms,
      fs.modules.find? (fun s => s.moduleNumber = m.moduleNumber) = some ms ∧
      ∀ t ∈ m.topics,
        (ms.topics.find? (fun s => s.topicNumber = t.topicNumber)).isSome) :
    (modules.foldl (genModuleStep outcome fs) r).topicResults.map projRes =
        r.topicResults.map projRes ++ (modules.flatMap moduleKeys).map (fun k =>
          (k.1, k.2,
            if statusFail (outcome k.1 k.2) then TopicStatus.failed
            else TopicStatus.completed)) ∧
      (modules.foldl (genModuleStep outcome fs) r).completedTopics =
        r.completedTopics +
          (modules.flatMap moduleKeys).countP (fun k => !statusFail (outcome k.1 k.2)) ∧
      (modules.foldl (genModuleStep outcome fs) r).failedTopics =
        r.failedTopics +
          (modules.flatMap moduleKeys).countP (fun k => statusFail (outcome k.1 k.2)) ∧
      (modules.foldl (genModuleStep outcome fs) r).totalTopics = r.totalTopics := by
  induction modules generalizing r with
  | nil => simp
  | cons m rest ih =>
    obtain ⟨ms, hms, htopics⟩ := h m (List.mem_cons_self m rest)
    have hrest : ∀ m' ∈ rest, ∃ ms',
        fs.modules.find? (fun s => s.moduleNumber = m'.moduleNumber) = some ms' ∧
        ∀ t ∈ m'.topics,
          (ms'.topics.find? (fun s => s.topicNumber = t.topicNumber)).isSome :=
      fun m' hm' => h m' (List.mem_cons_of_mem m hm')
    simp only [List.foldl_cons]
    have hstep : genModuleStep outcome fs r m =
        m.topics.foldl (genTopicStep outcome m.moduleNumber ms) r := by
      unfold genModuleStep
      rw [hms]
    rw [hstep]
    obtain ⟨t1, t2, t3, t4⟩ :=
      genTopics_fold outcome m.moduleNumber ms m.topics r htopics
    obtain ⟨e1, e2, e3, e4⟩ :=
      ih (m.topics.foldl (genTopicStep outcome m.moduleNumber ms) r) hrest
    have hmk : moduleKeys m = m.topics.map (fun t => (m.moduleNumber, t.topicNumber)) := rfl
    refine ⟨?_, ?_, ?_, ?_⟩
    · rw [e1, t1]
      simp only [List.flatMap_cons, List.map_append, List.append_assoc, hmk,
        List.map_map]
      rfl
    · rw [e2, t2]
      have : (m.topics.map (fun t => (m.moduleNumber, t.topicNumber))).countP
            (fun k => !statusFail (outcome k.1 k.2)) =
          m.topics.countP (fun t => !statusFail (outcome m.moduleNumber t.topicNumber)) := by
        rw [List.countP_map]
        rfl
      simp only [List.flatMap_cons, List.countP_append, hmk]
      omega
    · rw [e3, t3]
      have : (m.topics.map (fun t => (m.moduleNumber, t.topicNumber))).countP
            (fun k => statusFail (outcome k.1 k.2)) =
          m.topics.countP (fun t => statusFail (outcome m.moduleNumber t.topicNumber)) := by
        rw [List.countP_map]
        rfl
      simp only [List.flatMap_cons, List.countP_append, hmk]
      omega
    · rw [e4, t4]

theorem statusFail_singleFail (fm : Nat) (ft msg : String) (m : Nat) (t : String) :
    statusFail (singleFailOutcome fm ft msg m t) =
      (decide (m = fm) && decide (t = ft)) := by
  unfold singleFailOutcome
  split
  · rename_i hc
    simp only [statusFail]
    exact hc.symm
  · rename_i hc
    simp only [statusFail]
    simpa using hc

theorem totalTopics_eq_keys_length (spec : CourseSpec) :
    totalTopics spec = (topicKeys spec).length := by
  unfold totalTopics topicKeys
  have haux : ∀ (ms : List Module) (a : Nat),
      ms.foldl (fun n m => n + m.topics.length) a = a + (ms.flatMap moduleKeys).length := by
    intro ms
    induction ms with
    | nil => intro a; simp
    | cons m rest ih =>
      intro a
      rw [List.foldl_cons, ih, List.flatMap_cons, List.length_append]
      have : (moduleKeys m).length = m.topics.length := by
        unfold moduleKeys
        rw [List.length_map]
      omega
  simpa using haux spec.modules 0

theorem structureMatches_spec {spec : CourseSpec} {fs : FolderStructure}
    (hmatch : structureMatches spec fs = true) :
    ∀ m ∈ spec.modules, ∃ ms,
      fs.modules.find? (fun s => s.moduleNumber = m.moduleNumber) = some ms ∧
      ∀ t ∈ m.topics,
        (ms.topics.find? (fun s => s.topicNumber = t.topicNumber)).isSome := by
  intro m hm
  have h1 := List.all_eq_true.mp hmatch m hm
  cases hfind : fs.modules.find? (fun s => s.moduleNumber = m.moduleNumber) with
  | none =>
    rw [hfind] at h1
    simp at h1
  | some ms =>
    rw [hfind] at h1
    refine ⟨ms, rfl, ?_⟩
    intro t ht
    exact List.all_eq_true.mp h1 t ht

/-- C4: failure isolation.  When the structure was materialized for the
spec, and the generation/write test double fails for exactly one topic key
(`failModule`, `failTopic`) and succeeds for every other topic, the
generating phase of `runPipeline` reports exactly one failed topic, marks
every other topic completed (a result is failed precisely when it is the
failing topic's), completed + failed equals the total topic count, and every
topic still contributes exactly one result — the caught error does not
remove or fail sibling tasks. -/
theorem runPipeline_c4_failure_isolation (spec : CourseSpec)
    (fs : FolderStructure) (failModule : Nat) (failTopic msg : String)
    (hmatch : structureMatches spec fs = true)
    (hone : (topicKeys spec).countP
      (fun k => decide (k.1 = failModule) && decide (k.2 = failTopic)) = 1) :
    (generatePhase spec fs (singleFailOutcome failModule failTopic msg)).failedTopics = 1 ∧
    (generatePhase spec fs (singleFailOutcome failModule failTopic msg)).completedTopics + 1 =
      totalTopics spec ∧
    (generatePhase spec fs (singleFailOutcome failModule failTopic msg)).completedTopics +
        (generatePhase spec fs (singleFailOutcome failModule failTopic msg)).failedTopics =
      totalTopics spec ∧
    (generatePhase spec fs (singleFailOutcome failModule failTopic msg)).topicResults.length =
      totalTopics spec ∧
    ∀ res ∈ (generatePhase spec fs (singleFailOutcome failModule failTopic msg)).topicResults,
      (res.status = .failed ↔ (res.moduleNumber = failModule ∧ res.topicNumber = failTopic)) := by
  obtain ⟨e1, e2, e3, _⟩ :=
    genModules_fold (singleFailOutcome failModule failTopic msg) fs spec.modules
      { totalTopics := totalTopics spec
        completedTopics := 0
        failedTopics := 0
        topicResults := []
        errors := [] }
      (structureMatches_spec hmatch)
  have hkeys : spec.modules.flatMap moduleKeys = topicKeys spec := rfl
  have hfail : (topicKeys spec).countP
      (fun k => statusFail (singleFailOutcome failModule failTopic msg k.1 k.2)) = 1 := by
    rw [← hone]
    apply List.countP_congr
    intro k _
    rw [statusFail_singleFail]
  have hok : (topicKeys spec).countP
      (fun k => !statusFail (singleFailOutcome failModule failTopic msg k.1 k.2)) =
      (topicKeys spec).length - 1 := by
    have hsplit := List.length_eq_countP_add_countP
      (fun k => statusFail (singleFailOutcome failModule failTopic msg k.1 k.2))
      (topicKeys spec)
    have hnot : (topicKeys spec).countP
        (fun k => decide ¬(statusFail (singleFailOutcome failModule failTopic msg k.1 k.2) = true)) =
        (topicKeys spec).countP
          (fun k => !statusFail (singleFailOutcome failModule failTopic msg k.1 k.2)) := by
      apply List.countP_congr
      intro k _
      simp
    rw [hnot] at hsplit
    omega
  have hfailed :
      (generatePhase spec fs (singleFailOutcome failModule failTopic msg)).failedTopics = 1 := by
    unfold generatePhase
    rw [e3, hkeys, hfail]
  have hcompleted :
      (generatePhase spec fs (singleFailOutcome failModule failTopic msg)).completedTopics =
        totalTopics spec - 1 := by
    unfold generatePhase
    rw [e2, hkeys, hok, totalTopics_eq_keys_length]
    simp
  have htotpos : 1 ≤ totalTopics spec := by
    rw [totalTopics_eq_keys_length]
    have := List.countP_le_length
      (p := fun k => statusFail (singleFailOutcome failModule failTopic msg k.1 k.2))
      (l := topicKeys spec)
    omega
  have hlen :
      (generatePhase spec fs (singleFailOutcome failModule failTopic msg)).topicResults.length =
        totalTopics spec := by
    have hthis := congrArg List.length e1
    rw [List.length_map, List.length_append, List.length_map, List.length_map] at hthis
    unfold generatePhase
    rw [hthis, hkeys, totalTopics_eq_keys_length]
    simp
  refine ⟨hfailed, by omega, by omega, hlen, ?_⟩
  intro res hres
  have hmem : projRes res ∈
      (generatePhase spec fs (singleFailOutcome failModule failTopic msg)).topicResults.map
        projRes :=
    List.mem_map_of_mem projRes hres
  unfold generatePhase at hmem
  rw [e1, hkeys] at hmem
  simp only [List.map_nil, List.nil_append, List.mem_map] at hmem
  obtain ⟨k, _, hk⟩ := hmem
  unfold projRes at hk
  replace hk := hk.symm
  have h1 : res.moduleNumber = k.1 := congrArg Prod.fst hk
  have h2 : res.topicNumber = k.2 := congrArg Prod.fst (congrArg Prod.snd hk)
  have h3 : res.status =
      (if statusFail (singleFailOutcome failModule failTopic msg k.1 k.2) then
        TopicStatus.failed else .completed) :=
    congrArg Prod.snd (congrArg Prod.snd hk)
  rw [statusFail_singleFail] at h3
  by_cases hc : k.1 = failModule ∧ k.2 = failTopic
  · constructor
    · intro _
      rw [h1, h2]
      exact hc
    · intro _
      rw [h3, if_pos (by simp [hc.1, hc.2])]
  · constructor
    · intro hst
      rw [h3, if_neg (by simpa using hc)] at hst
      exact absurd hst (by simp)
    · intro hres'
      exact absurd ⟨h1 ▸ hres'.1, h2 ▸ hres'.2⟩ hc

/-- Witness for the failure-isolation theorem: a concrete two-module,
three-topic spec with its materialized structure and a double failing
exactly for topic (2, "2.1"). -/
theorem runPipeline_c4_failure_isolation_witness :
    (generatePhase wSpec wStructure (singleFailOutcome 2 "2.1" "boom")).failedTopics = 1 ∧
    (generatePhase wSpec wStructure (singleFailOutcome 2 "2.1" "boom")).completedTopics + 1 =
      totalTopics wSpec ∧
    (generatePhase wSpec wStructure (singleFailOutcome 2 "2.1" "boom")).completedTopics +
        (generatePhase wSpec wStructure (singleFailOutcome 2 "2.1" "boom")).failedTopics =
      totalTopics wSpec ∧
    (generatePhase wSpec wStructure (singleFailOutcome 2 "2.1" "boom")).topicResults.length =
      totalTopics wSpec ∧
    ∀ res ∈ (generatePhase wSpec wStructure (singleFailOutcome 2 "2.1" "boom")).topicResults,
      (res.status = .failed ↔ (res.moduleNumber = 2 ∧ res.topicNumber = "2.1")) :=
  runPipeline_c4_failure_isolation wSpec wStructure 2 "2.1" "boom"
    (by decide) (by decide)

end ContentBackend
